import Mathlib

/-!
Verification of `Examples/Image/Detection/FasterRCNN/hierarchical_evaluation.py`.

The script evaluates a hierarchical object-detection model: it expands
ground-truth labels through a class hierarchy, assembles per-class detection
lists, computes per-class AP and the mean AP, and can draw boxes on images.

Modelling conventions:
* real-valued coordinates and scores are `ℚ` (exact arithmetic);
* the hierarchy helper `HCH` (class `HierarchyHelper`, an external
  collaborator constructed from a dataset name) is abstracted as a
  `Hierarchy` structure whose fields are its consumed operations;
* fallible steps (Python `assert`, `IndexError`, `np.concatenate` of an
  empty sequence) are an `Except String` result;
* a numpy 2-d array is a list of rows (`List ℚ`); numpy's `astype(float32)`
  is dropped (pure representation change);
* `draw_bb_on_image` is embedded as a function returning the list of
  observable events it performs (diagnostic prints, rectangles, text).
-/

/-- One ground-truth box of the input `gtbs[image_i]`: the first four columns
(`image_gtbs[:, 0:4]`) and the last column (`int(original_labels[gtb_i][0])`)
of one row. -/
structure GtBox where
  coords : List ℚ
  label : ℕ
deriving DecidableEq

/-- The operations the script consumes from the global hierarchy helper `HCH`
(`HierarchyHelper`, external) and its `output_mapper` / `cls_maps`. -/
structure Hierarchy where
  /-- `HCH.get_vectors_for_label_nr(label)` returns `(train_vector, aux)`. -/
  get_vectors_for_label_nr : ℕ → List ℚ × List ℚ
  /-- `HCH.output_mapper.get_prediciton_vector(v)` (sic): reduce a vector to
  the mapped class space. -/
  get_prediciton_vector : List ℚ → List ℚ
  /-- `HCH.cls_maps[0].getClass(label)`: the original class name of a label. -/
  getClass : ℕ → String
  /-- `HCH.output_mapper.get_all_classes()`. -/
  get_all_classes : List String
  /-- `HCH.top_down_eval(pred_vector)`. -/
  top_down_eval : List ℚ → List ℚ

/-- One detection row while it still carries its label column, or after the
label column is dropped. -/
abbrev Row := List ℚ

/-- `all_boxes[cls][img]`: the detections of one class on one image. -/
abbrev Cell := List Row

/-- The class-major, image-major structure returned by `prepare_predictions`. -/
abbrev BoxGrid := List (List Cell)

/-- The message of the assertion at line 68 of the source. -/
def gtAssertMsg : String := "Original class label is not contained in mapped selection!"

/-- `np.concatenate` applied to an empty sequence of arrays raises. -/
def concatEmptyMsg : String := "ValueError: need at least one array to concatenate"

/-- The assertion at line 109 of the source. -/
def predAssertMsg : String := "AssertionError: len(reduced_p_vector) == num_classes"

/-- A Python list indexing failure. -/
def indexErrorMsg : String := "IndexError: list index out of range"

/-- The last column `row[-1]` of a detection row (label column). -/
def lastColumn (row : Row) : ℚ := row.getLastD 0

/-- The reduced (hierarchy-expanded) vector of a ground-truth label:
`HCH.output_mapper.get_prediciton_vector(train_vector)` where
`train_vector, _ = HCH.get_vectors_for_label_nr(label)` (lines 53-54). -/
def reduced_vector (H : Hierarchy) (label : ℕ) : List ℚ :=
  H.get_prediciton_vector (H.get_vectors_for_label_nr label).1

/-- The inner loop of `prepare_ground_truth_boxes` over `vector_i in
range(1, len(reduced_vector))` (lines 57-66): skips zero entries, looks the
class name up in `classes`, clears `original_cls_name` on a name match and
collects one derived box `coords ++ [vector_i]` per active entry. -/
def gtVectorLoop (classes : List String) (reduced : List ℚ) (coords : List ℚ) :
    List ℕ → Option String → Except String (Option String × List Row)
  | [], orig => .ok (orig, [])
  | i :: rest, orig =>
    if reduced.getD i 0 = 0 then gtVectorLoop classes reduced coords rest orig
    else
      match classes.get? i with
      | none => .error indexErrorMsg
      | some current_class_name =>
        let orig' := if orig = some current_class_name then none else orig
        match gtVectorLoop classes reduced coords rest orig' with
        | .error e => .error e
        | .ok (o, bs) => .ok (o, (coords ++ [(i : ℚ)]) :: bs)

/-- Processing of one ground-truth box (lines 52-68): expand the label,
run the vector loop, and check the assertion `original_cls_name is None`. -/
def processGtBox (H : Hierarchy) (classes : List String) (b : GtBox) :
    Except String (List Row) :=
  let reduced := reduced_vector H b.label
  let original_cls_name := H.getClass b.label
  match gtVectorLoop classes reduced b.coords
      (List.range' 1 (reduced.length - 1)) (some original_cls_name) with
  | .error e => .error e
  | .ok (orig, boxes) =>
    if orig = none then .ok boxes else .error gtAssertMsg

/-- Processing of one image (lines 50-70): concatenate the derived boxes of
all its ground-truth boxes; `np.concatenate` of an empty list raises. -/
def processGtImage (H : Hierarchy) (classes : List String) (imageBoxes : List GtBox) :
    Except String (List Row) :=
  match imageBoxes.foldlM (fun acc b =>
      (processGtBox H classes b).map (fun bs => acc ++ bs)) ([] : List Row) with
  | .error e => .error e
  | .ok allBoxes => if allBoxes.isEmpty then .error concatEmptyMsg else .ok allBoxes

/-- One per-image, per-class ground-truth record (lines 75-77). -/
structure GtRecord where
  bbox : List Row
  difficult : List Bool
  det : List Bool
deriving DecidableEq

/-- The record appended for one class on one image (lines 74-77):
the derived boxes whose label column equals the class index, with all
`difficult` and `det` flags initialized `False`. -/
def classRecord (allBoxes : List Row) (cls_index : ℕ) : GtRecord :=
  let cls_gt_boxes := allBoxes.filter (fun row => lastColumn row = (cls_index : ℚ))
  { bbox := cls_gt_boxes
    difficult := List.replicate cls_gt_boxes.length false
    det := List.replicate cls_gt_boxes.length false }

/-- The loop `for cls_index, cls_name in enumerate(classes)` (lines 72-77):
appends one record per non-background class; index 0 is skipped. The Python
dict keyed by class name is modelled as a list in class-index order (with
distinct class names the two are in bijection). -/
def appendClassRecords (allBoxes : List Row) :
    ℕ → List (List GtRecord) → List (List GtRecord)
  | _, [] => []
  | cls_index, lst :: rest =>
    (if cls_index = 0 then lst else lst ++ [classRecord allBoxes cls_index]) ::
      appendClassRecords allBoxes (cls_index + 1) rest

/-- The loop over images of `prepare_ground_truth_boxes` (lines 45-77). -/
def gtImagesLoop (H : Hierarchy) (classes : List String) :
    List (List GtBox) → List (List GtRecord) → Except String (List (List GtRecord))
  | [], acc => .ok acc
  | img :: rest, acc =>
    match processGtImage H classes img with
    | .error e => .error e
    | .ok allBoxes => gtImagesLoop H classes rest (appendClassRecords allBoxes 0 acc)

/-- `prepare_ground_truth_boxes(gtbs)` (lines 31-79). -/
def prepare_ground_truth_boxes (H : Hierarchy) (gtbs : List (List GtBox)) :
    Except String (List (List GtRecord)) :=
  gtImagesLoop H H.get_all_classes gtbs (H.get_all_classes.map fun _ => [])

/-- The reduced prediction vector of one region (lines 106-107):
`HCH.output_mapper.get_prediciton_vector(HCH.top_down_eval(pred_vector))`. -/
def reduced_p_vector (H : Hierarchy) (pred_vector : List ℚ) : List ℚ :=
  H.get_prediciton_vector (H.top_down_eval pred_vector)

/-- Processing of one region (lines 103-114): the assertion
`len(reduced_p_vector) == num_classes`, then one `coords+score+label` row per
non-zero entry of the reduced vector (`for label_i in range(num_classes)`). -/
def processRoi (H : Hierarchy) (num_classes : ℕ) (roi : Row) (pred_vector : List ℚ) :
    Except String (List Row) :=
  let reduced := reduced_p_vector H pred_vector
  if reduced.length = num_classes then
    .ok ((List.range num_classes).filterMap fun label_i =>
      if reduced.getD label_i 0 = 0 then none
      else some (roi ++ [reduced.getD label_i 0, (label_i : ℚ)]))
  else .error predAssertMsg

/-- The loop over regions of one image (lines 102-114): `output[roi_i]` is
always in bounds, `rois[roi_i]` may raise `IndexError`. -/
def predRoiLoop (H : Hierarchy) (num_classes : ℕ) (output rois : List (List ℚ)) :
    List ℕ → List Row → Except String (List Row)
  | [], acc => .ok acc
  | roi_i :: rest, acc =>
    match rois.get? roi_i with
    | none => .error indexErrorMsg
    | some roi =>
      match processRoi H num_classes roi (output.getD roi_i []) with
      | .error e => .error e
      | .ok rows => predRoiLoop H num_classes output rois rest (acc ++ rows)

/-- One image of `prepare_predictions` (lines 101-116): collect the rows of
all regions and concatenate them (`np.concatenate` raises on an empty list). -/
def predsForImg (H : Hierarchy) (num_classes : ℕ) (output rois : List (List ℚ)) :
    Except String (List Row) :=
  match predRoiLoop H num_classes output rois (List.range output.length) [] with
  | .error e => .error e
  | .ok rows => if rows.isEmpty then .error concatEmptyMsg else .ok rows

/-- `all_boxes[i][j] = v` on the nested-list grid. -/
def setCell (grid : BoxGrid) (i j : ℕ) (v : Cell) : BoxGrid :=
  grid.set i ((grid.getD i []).set j v)

/-- The per-class assignment loop (lines 118-120): for `cls_j in
range(1, num_classes)` store the rows whose label column is `cls_j`, label
column dropped (`[:, :-1]`). -/
def assignClassRows (rows : List Row) (num_classes img_i : ℕ) (grid : BoxGrid) :
    BoxGrid :=
  (List.range' 1 (num_classes - 1)).foldl
    (fun g cls_j =>
      setCell g cls_j img_i
        ((rows.filter fun r => lastColumn r = (cls_j : ℚ)).map (fun r => r.dropLast)))
    grid

/-- The loop over images of `prepare_predictions` (lines 94-120). -/
def predImagesLoop (H : Hierarchy) (num_classes : ℕ)
    (outputs roiss : List (List (List ℚ))) :
    List ℕ → BoxGrid → Except String BoxGrid
  | [], grid => .ok grid
  | img_i :: rest, grid =>
    match roiss.get? img_i with
    | none => .error indexErrorMsg
    | some rois =>
      match predsForImg H num_classes (outputs.getD img_i []) rois with
      | .error e => .error e
      | .ok rows =>
        predImagesLoop H num_classes outputs roiss rest
          (assignClassRows rows num_classes img_i grid)

/-- `prepare_predictions(outputs, roiss, num_classes)` (lines 82-122); the
grid starts as `num_classes × num_test_images` empty lists (line 92). -/
def prepare_predictions (H : Hierarchy) (outputs roiss : List (List (List ℚ)))
    (num_classes : ℕ) : Except String BoxGrid :=
  predImagesLoop H num_classes outputs roiss (List.range outputs.length)
    (List.replicate num_classes (List.replicate outputs.length ([] : Cell)))

/-- Models `np.nanmean` on a 1-d array: the mean of the entries that are not
NaN; NaN is modelled as `none`. An all-NaN input yields NaN. -/
def nanmean (xs : List (Option ℚ)) : Option ℚ :=
  let vals := xs.filterMap id
  if vals.isEmpty then none else some (vals.sum / vals.length)

/-- The reporting loop of `eval_fast_rcnn_mAP` (lines 207-211): one AP per
class, background skipped, in class order. An AP of NaN is `none`. -/
def ap_list_build (classes : List String) (aps : String → Option ℚ) :
    List (Option ℚ) :=
  classes.foldl (fun acc class_name =>
    if class_name = "__background__" then acc else acc ++ [aps class_name]) []

/-- The reported `Mean AP` (line 212): `np.nanmean(ap_list)`. -/
def mean_ap (classes : List String) (aps : String → Option ℚ) : Option ℚ :=
  nanmean (ap_list_build classes aps)

/-- The configuration record consumed by `eval_fast_rcnn_mAP`. -/
structure EvalConfig where
  NUM_TEST_IMAGES : ℕ
  INPUT_ROIS_PER_IMAGE : ℕ
deriving DecidableEq

/-- The iteration count of the test-image loop of `eval_fast_rcnn_mAP`
(line 164): the source sets `num_test_images = 10`; the configuration value
`cfg.DATA.NUM_TEST_IMAGES` appears only in a trailing comment on that line. -/
def num_test_images_used (_cfg : EvalConfig) : ℕ := 10

/-- The accumulation of the loop at lines 174-198: one per-image entry is
appended per iteration (to each of `all_raw_gt_boxes`, `all_raw_outputs`,
`all_raw_rois`); `f i` is the entry of iteration `i`. -/
def eval_loop_accumulated {α : Type} (cfg : EvalConfig) (f : ℕ → α) : List α :=
  (List.range (num_test_images_used cfg)).map f

/-- Python's `int()` applied to a real value: truncation toward zero. -/
def int_trunc (q : ℚ) : ℤ := if 0 ≤ q then ⌊q⌋ else ⌈q⌉

/-- An observable action of `draw_bb_on_image`: the out-of-bounds diagnostic
print (line 326, carrying the unclamped pixel corners), `cv2.rectangle`
(line 334) or `cv2.putText` (line 337). -/
inductive DrawEvent where
  | oobMsg (xmin ymin xmax ymax : ℤ)
  | rect (xmin ymin xmax ymax : ℤ) (color : ℤ × ℤ × ℤ)
  | text (s : String) (x y : ℤ) (color : ℤ × ℤ × ℤ)
deriving DecidableEq

/-- The pixel corners `(xmin, ymin, xmax, ymax)` of one center-form box
(lines 321-324). -/
def box_pixel_corners (image_width image_height : ℕ) (box : List ℚ) :
    ℤ × ℤ × ℤ × ℤ :=
  (int_trunc (image_width * (box.getD 0 0 - box.getD 2 0 / 2)),
   int_trunc (image_height * (box.getD 1 0 - box.getD 3 0 / 2)),
   int_trunc (image_width * (box.getD 0 0 + box.getD 2 0 / 2)),
   int_trunc (image_height * (box.getD 1 0 + box.getD 3 0 / 2)))

/-- The out-of-bounds test of line 325. -/
def out_of_bounds (image_width image_height : ℕ) (c : ℤ × ℤ × ℤ × ℤ) : Bool :=
  decide ((image_width : ℤ) ≤ c.2.2.1) || decide ((image_height : ℤ) ≤ c.2.2.2) ||
    decide (c.1 < 0) || decide (c.2.1 < 0)

/-- The clamping of lines 328-331. -/
def clamp_corners (image_width image_height : ℕ) (c : ℤ × ℤ × ℤ × ℤ) :
    ℤ × ℤ × ℤ × ℤ :=
  (if c.1 < 0 then 0 else c.1,
   if c.2.1 < 0 then 0 else c.2.1,
   if (image_width : ℤ) ≤ c.2.2.1 then (image_width : ℤ) - 1 else c.2.2.1,
   if (image_height : ℤ) ≤ c.2.2.2 then (image_height : ℤ) - 1 else c.2.2.2)

/-- The per-box color of line 333, keyed to the rank `j` of the box. -/
def rank_color (j box_list_len : ℕ) : ℤ × ℤ × ℤ :=
  (255, 255 - int_trunc ((j : ℚ) * 255 / (box_list_len : ℚ)),
   int_trunc ((j : ℚ) * 255 / (box_list_len : ℚ)))

/-- The body of the box loop of `draw_bb_on_image` (lines 320-337), as the
list of events it performs. -/
def draw_one_box (image_width image_height box_list_len j : ℕ)
    (box : List ℚ) (name : Option String) : List DrawEvent :=
  let c := box_pixel_corners image_width image_height box
  (if out_of_bounds image_width image_height c
    then [DrawEvent.oobMsg c.1 c.2.1 c.2.2.1 c.2.2.2] else []) ++
  (let c' := clamp_corners image_width image_height c
   let color := rank_color j box_list_len
   [DrawEvent.rect c'.1 c'.2.1 c'.2.2.1 c'.2.2.2 color] ++
     (match name with
      | some s => [DrawEvent.text s c'.1 c'.2.2.2 color]
      | none => []))

/-- `draw_bb_on_image(image, bb_list, name)` (lines 312-339) as its event
trace; the image itself enters only through its width and height
(`LIMIT_TO_FIRST` is `None` in the source, so every box is processed). -/
def draw_bb_on_image (image_width image_height : ℕ) (bb_list : List (List ℚ))
    (name : Option String) : List DrawEvent :=
  ((List.range bb_list.length).map fun j =>
    draw_one_box image_width image_height bb_list.length j (bb_list.getD j []) name).flatten

/-- `points_to_xywh(points)` (lines 359-368), per row: corner form to center
form, columns past the fourth copied unchanged. -/
def points_to_xywh (points : List ℚ) : List ℚ :=
  [(points.getD 0 0 + points.getD 2 0) / 2,
   (points.getD 1 0 + points.getD 3 0) / 2,
   |points.getD 2 0 - points.getD 0 0|,
   |points.getD 3 0 - points.getD 1 0|] ++ points.drop 4

/-- The `centered_coords` branch of `to_image_input_coordinates`
(lines 137-140), per row: `xy - wh/2, xy + wh/2`, center form back to corner
form. -/
def centered_coords_to_corners (coords : List ℚ) : List ℚ :=
  [coords.getD 0 0 - coords.getD 2 0 / 2,
   coords.getD 1 0 - coords.getD 3 0 / 2,
   coords.getD 0 0 + coords.getD 2 0 / 2,
   coords.getD 1 0 + coords.getD 3 0 / 2]

/-- A concrete hierarchy in the shape of the spec's example: classes
`__background__`, `apple`, `fruit`, every label expanding to
`apple`+`fruit`. Used to instantiate the general theorems. -/
def sampleHierarchy : Hierarchy where
  get_vectors_for_label_nr := fun _ => ([0, 1, 1], [])
  get_prediciton_vector := fun v => v
  getClass := fun _ => "apple"
  get_all_classes := ["__background__", "apple", "fruit"]
  top_down_eval := fun v => v

/-- C8: for a corner-form box with `xmax ≥ xmin` and `ymax ≥ ymin`,
converting to center form with `points_to_xywh` and back to corner form with
the `centered_coords` branch of `to_image_input_coordinates` reproduces the
original four coordinates exactly over `ℚ`. -/
theorem corner_center_corner_roundtrip (xmin ymin xmax ymax : ℚ)
    (hx : xmin ≤ xmax) (hy : ymin ≤ ymax) :
    centered_coords_to_corners (points_to_xywh [xmin, ymin, xmax, ymax]) =
      [xmin, ymin, xmax, ymax] := by
  simp only [points_to_xywh, centered_coords_to_corners, List.getD_cons_zero,
    List.getD_cons_succ, List.drop_succ_cons, List.drop_nil, List.append_nil]
  rw [abs_of_nonneg (sub_nonneg.mpr hx), abs_of_nonneg (sub_nonneg.mpr hy)]
  simp only [List.cons.injEq, and_true]
  refine ⟨by ring, by ring, by ring, by ring⟩

theorem corner_center_corner_roundtrip_witness :
    centered_coords_to_corners (points_to_xywh [0, 1, 2, 4]) = [0, 1, 2, 4] :=
  corner_center_corner_roundtrip 0 1 2 4 (by norm_num) (by norm_num)

/-- The reporting fold of `eval_fast_rcnn_mAP`, relative to any accumulator. -/
theorem ap_list_foldl_eq (classes : List String) (aps : String → Option ℚ)
    (acc : List (Option ℚ)) :
    classes.foldl (fun acc class_name =>
        if class_name = "__background__" then acc else acc ++ [aps class_name]) acc =
      acc ++ (classes.filter (fun c => c ≠ "__background__")).map aps := by
  induction classes generalizing acc with
  | nil => simp
  | cons c cs ih => by_cases h : c = "__background__" <;> simp [h, ih]

/-- C5: the evaluation driver collects exactly one AP per non-background
class, in class order, and the reported mean AP is `np.nanmean` of that list;
an AP that is NaN (`none`) is excluded from both numerator and denominator of
the mean by `nanmean` itself, with no explicit filtering in the driver. -/
theorem eval_map_reports_nanmean (classes : List String) (aps : String → Option ℚ) :
    ap_list_build classes aps =
        (classes.filter (fun c => c ≠ "__background__")).map aps ∧
      mean_ap classes aps =
        nanmean ((classes.filter (fun c => c ≠ "__background__")).map aps) ∧
      ∀ xs : List (Option ℚ), nanmean xs = nanmean ((xs.filterMap id).map some) := by
  refine ⟨?_, ?_, ?_⟩
  · simpa using ap_list_foldl_eq classes aps []
  · unfold mean_ap ap_list_build
    rw [ap_list_foldl_eq classes aps []]
    simp
  · intro xs
    simp [nanmean, List.filterMap_map]

/-- C6: the test-image loop of `eval_fast_rcnn_mAP` runs 10 iterations and
accumulates 10 per-image entries even when the configuration asks for 5
(`num_test_images = 10` is hardcoded; `cfg.DATA.NUM_TEST_IMAGES` is only a
comment). -/
theorem eval_loop_count_hardcoded :
    num_test_images_used ⟨5, 100⟩ = 10 ∧
      (eval_loop_accumulated ⟨5, 100⟩ (fun i => i)).length = 10 ∧
      num_test_images_used ⟨5, 100⟩ ≠ (⟨5, 100⟩ : EvalConfig).NUM_TEST_IMAGES :=
  ⟨rfl, by simp [eval_loop_accumulated, num_test_images_used], by decide⟩

/-- C7 counterexample: the center-form box `(0, 0, 4, 4)` on a 10×10 image
has pixel corners `(-20, -20)`, `(20, 20)`, outside the image bounds; the
trace contains the diagnostic event AND a rectangle event with the clamped
corners: the box is clamped and drawn, not skipped. -/
theorem draw_oob_box_not_skipped :
    DrawEvent.oobMsg (-20) (-20) 20 20 ∈
        draw_bb_on_image 10 10 [[(0 : ℚ), 0, 4, 4]] none ∧
      DrawEvent.rect 0 0 9 9 (255, 255, 0) ∈
        draw_bb_on_image 10 10 [[(0 : ℚ), 0, 4, 4]] none := by
  have hbox : box_pixel_corners 10 10 [(0 : ℚ), 0, 4, 4] = (-20, -20, 20, 20) := by
    simp only [box_pixel_corners, List.getD_cons_zero, List.getD_cons_succ]
    norm_num [int_trunc, Int.ceil_neg]
  have hone : draw_one_box 10 10 1 0 [(0 : ℚ), 0, 4, 4] none =
      [DrawEvent.oobMsg (-20) (-20) 20 20, DrawEvent.rect 0 0 9 9 (255, 255, 0)] := by
    rw [draw_one_box, hbox]
    norm_num [out_of_bounds, clamp_corners, rank_color, int_trunc]
  have h : draw_bb_on_image 10 10 [[(0 : ℚ), 0, 4, 4]] none =
      [DrawEvent.oobMsg (-20) (-20) 20 20, DrawEvent.rect 0 0 9 9 (255, 255, 0)] := by
    rw [draw_bb_on_image]
    simp only [List.length_cons, List.length_nil, show List.range 1 = [0] from rfl,
      List.map_cons, List.map_nil, List.getD_cons_zero, List.flatten_cons,
      List.flatten_nil, List.append_nil]
    exact hone
  rw [h]
  constructor <;> simp

/-- C7 (amended): every box is drawn: the event trace of one box always
contains the rectangle event with the clamped corners and the rank-keyed
color; the out-of-bounds diagnostic appears exactly when the unclamped
corners fail the bounds test; label text, when a name is given, is placed at
the box's bottom edge (`(xmin, ymax)` after clamping). -/
theorem draw_box_clamps_and_draws (image_width image_height box_list_len j : ℕ)
    (box : List ℚ) (name : Option String) :
    (DrawEvent.rect
        (clamp_corners image_width image_height (box_pixel_corners image_width image_height box)).1
        (clamp_corners image_width image_height (box_pixel_corners image_width image_height box)).2.1
        (clamp_corners image_width image_height (box_pixel_corners image_width image_height box)).2.2.1
        (clamp_corners image_width image_height (box_pixel_corners image_width image_height box)).2.2.2
        (rank_color j box_list_len) ∈
        draw_one_box image_width image_height box_list_len j box name) ∧
      ((∃ a b x y, DrawEvent.oobMsg a b x y ∈
          draw_one_box image_width image_height box_list_len j box name) ↔
        out_of_bounds image_width image_height
          (box_pixel_corners image_width image_height box) = true) ∧
      (∀ s x y col, DrawEvent.text s x y col ∈
          draw_one_box image_width image_height box_list_len j box name →
        name = some s ∧
          x = (clamp_corners image_width image_height (box_pixel_corners image_width image_height box)).1 ∧
          y = (clamp_corners image_width image_height (box_pixel_corners image_width image_height box)).2.2.2) := by
  unfold draw_one_box
  cases h : out_of_bounds image_width image_height (box_pixel_corners image_width image_height box) <;>
    cases name <;> simp_all

/-- The box's original class name appears among the non-background classes
whose entry in the reduced (hierarchy-expanded) vector is non-zero. -/
def originalAppears (H : Hierarchy) (label : ℕ) : Prop :=
  ∃ i ∈ List.range' 1 ((reduced_vector H label).length - 1),
    (reduced_vector H label).getD i 0 ≠ 0 ∧
      H.get_all_classes.get? i = some (H.getClass label)

/-- Unfolding lemmas for the vector loop. -/
theorem gtVectorLoop_nil (classes : List String) (reduced coords : List ℚ)
    (orig : Option String) :
    gtVectorLoop classes reduced coords [] orig = .ok (orig, []) := rfl

theorem gtVectorLoop_cons_zero (classes : List String) (reduced coords : List ℚ)
    (i : ℕ) (rest : List ℕ) (orig : Option String)
    (hz : reduced.getD i 0 = 0) :
    gtVectorLoop classes reduced coords (i :: rest) orig =
      gtVectorLoop classes reduced coords rest orig := by
  show (if reduced.getD i 0 = 0 then _ else _) = _
  rw [if_pos hz]

theorem gtVectorLoop_cons_oob (classes : List String) (reduced coords : List ℚ)
    (i : ℕ) (rest : List ℕ) (orig : Option String)
    (hz : ¬ reduced.getD i 0 = 0) (hc : classes.get? i = none) :
    gtVectorLoop classes reduced coords (i :: rest) orig = .error indexErrorMsg := by
  show (if reduced.getD i 0 = 0 then _ else _) = _
  rw [if_neg hz, hc]

theorem gtVectorLoop_cons_active (classes : List String) (reduced coords : List ℚ)
    (i : ℕ) (rest : List ℕ) (orig : Option String) (c : String)
    (hz : ¬ reduced.getD i 0 = 0) (hc : classes.get? i = some c) :
    gtVectorLoop classes reduced coords (i :: rest) orig =
      match gtVectorLoop classes reduced coords rest
          (if orig = some c then none else orig) with
      | .error e => .error e
      | .ok (o, bs) => .ok (o, (coords ++ [(i : ℚ)]) :: bs) := by
  show (if reduced.getD i 0 = 0 then _ else _) = _
  rw [if_neg hz, hc]

theorem gtVectorLoop_ok (classes : List String) (reduced coords : List ℚ)
    (idxs : List ℕ) (orig : Option String)
    (hb : ∀ i ∈ idxs, reduced.getD i 0 ≠ 0 → i < classes.length) :
    ∃ o bs, gtVectorLoop classes reduced coords idxs orig = .ok (o, bs) := by
  induction idxs generalizing orig with
  | nil => exact ⟨orig, [], rfl⟩
  | cons i rest ih =>
    have hb' : ∀ j ∈ rest, reduced.getD j 0 ≠ 0 → j < classes.length :=
      fun j hj => hb j (List.mem_cons_of_mem _ hj)
    by_cases hz : reduced.getD i 0 = 0
    · obtain ⟨o, bs, hrec⟩ := ih orig hb'
      exact ⟨o, bs, by rw [gtVectorLoop_cons_zero _ _ _ _ _ _ hz]; exact hrec⟩
    · have hlt : i < classes.length := hb i (List.mem_cons_self _ _) hz
      have hc : classes.get? i = some (classes.get ⟨i, hlt⟩) := List.get?_eq_get hlt
      obtain ⟨o, bs, hrec⟩ :=
        ih (if orig = some (classes.get ⟨i, hlt⟩) then none else orig) hb'
      refine ⟨o, (coords ++ [(i : ℚ)]) :: bs, ?_⟩
      rw [gtVectorLoop_cons_active _ _ _ _ _ _ _ hz hc, hrec]

theorem gtVectorLoop_none_stays (classes : List String) (reduced coords : List ℚ)
    (idxs : List ℕ) (o : Option String) (bs : List Row)
    (h : gtVectorLoop classes reduced coords idxs none = .ok (o, bs)) :
    o = none := by
  induction idxs generalizing o bs with
  | nil =>
    rw [gtVectorLoop_nil] at h
    injection h with h1
    injection h1 with h2 h3
    exact h2.symm
  | cons i rest ih =>
    by_cases hz : reduced.getD i 0 = 0
    · rw [gtVectorLoop_cons_zero _ _ _ _ _ _ hz] at h
      exact ih o bs h
    · cases hc : classes.get? i with
      | none => rw [gtVectorLoop_cons_oob _ _ _ _ _ _ hz hc] at h; exact absurd h (by simp)
      | some c =>
        rw [gtVectorLoop_cons_active _ _ _ _ _ _ _ hz hc, ite_self] at h
        cases hrec : gtVectorLoop classes reduced coords rest none with
        | error e => rw [hrec] at h; exact absurd h (by simp)
        | ok p =>
          obtain ⟨o', bs'⟩ := p
          rw [hrec] at h
          simp only [Except.ok.injEq, Prod.mk.injEq] at h
          exact h.1.symm.trans (ih o' bs' hrec)

theorem gtVectorLoop_orig_spec (classes : List String) (reduced coords : List ℚ)
    (idxs : List ℕ) (name : String) (o : Option String) (bs : List Row)
    (h : gtVectorLoop classes reduced coords idxs (some name) = .ok (o, bs)) :
    (o = none ↔ ∃ i ∈ idxs, reduced.getD i 0 ≠ 0 ∧ classes.get? i = some name) := by
  induction idxs generalizing o bs with
  | nil =>
    rw [gtVectorLoop_nil] at h
    injection h with h1
    injection h1 with h2 h3
    simp [← h2]
  | cons i rest ih =>
    by_cases hz : reduced.getD i 0 = 0
    · rw [gtVectorLoop_cons_zero _ _ _ _ _ _ hz] at h
      rw [ih o bs h]
      constructor
      · rintro ⟨j, hj, hp⟩; exact ⟨j, List.mem_cons_of_mem _ hj, hp⟩
      · rintro ⟨j, hj, hp⟩
        rcases List.mem_cons.mp hj with rfl | hj'
        · exact absurd hz hp.1
        · exact ⟨j, hj', hp⟩
    · cases hc : classes.get? i with
      | none => rw [gtVectorLoop_cons_oob _ _ _ _ _ _ hz hc] at h; exact absurd h (by simp)
      | some c =>
        rw [gtVectorLoop_cons_active _ _ _ _ _ _ _ hz hc] at h
        by_cases hn : name = c
        · rw [if_pos (by rw [hn])] at h
          cases hrec : gtVectorLoop classes reduced coords rest none with
          | error e => rw [hrec] at h; exact absurd h (by simp)
          | ok p =>
            obtain ⟨o', bs'⟩ := p
            rw [hrec] at h
            simp only [Except.ok.injEq, Prod.mk.injEq] at h
            have ho : o = none :=
              h.1 ▸ gtVectorLoop_none_stays classes reduced coords rest o' bs' hrec
            simp only [ho, true_iff]
            exact ⟨i, List.mem_cons_self _ _, hz, by rw [hc, hn]⟩
        · rw [if_neg (by simp [hn])] at h
          cases hrec : gtVectorLoop classes reduced coords rest (some name) with
          | error e => rw [hrec] at h; exact absurd h (by simp)
          | ok p =>
            obtain ⟨o', bs'⟩ := p
            rw [hrec] at h
            simp only [Except.ok.injEq, Prod.mk.injEq] at h
            rw [← h.1, ih o' bs' hrec]
            constructor
            · rintro ⟨j, hj, hp⟩; exact ⟨j, List.mem_cons_of_mem _ hj, hp⟩
            · rintro ⟨j, hj, hp⟩
              rcases List.mem_cons.mp hj with rfl | hj'
              · exact absurd (by rw [hc] at hp; exact (Option.some_inj.mp hp.2).symm) hn
              · exact ⟨j, hj', hp⟩

/-- C1: for a ground-truth box (with every active entry of its reduced vector
naming a valid class index), the assertion of `prepare_ground_truth_boxes`
fires — the box's processing returns the fatal assertion error — exactly when
the box's original class name does not appear among the non-background
classes with a non-zero reduced entry; when it does appear, processing
succeeds. -/
theorem prepare_gt_assert_original_class (H : Hierarchy) (b : GtBox)
    (hb : ∀ i ∈ List.range' 1 ((reduced_vector H b.label).length - 1),
        (reduced_vector H b.label).getD i 0 ≠ 0 → i < H.get_all_classes.length) :
    (¬ originalAppears H b.label →
        processGtBox H H.get_all_classes b = .error gtAssertMsg) ∧
      (originalAppears H b.label →
        ∃ boxes, processGtBox H H.get_all_classes b = .ok boxes) := by
  obtain ⟨o, bs, hloop⟩ := gtVectorLoop_ok H.get_all_classes (reduced_vector H b.label)
    b.coords (List.range' 1 ((reduced_vector H b.label).length - 1))
    (some (H.getClass b.label)) hb
  have hiff := gtVectorLoop_orig_spec H.get_all_classes (reduced_vector H b.label)
    b.coords (List.range' 1 ((reduced_vector H b.label).length - 1))
    (H.getClass b.label) o bs hloop
  constructor
  · intro hno
    have ho : ¬ o = none := fun hn => hno (hiff.mp hn)
    simp only [processGtBox]
    rw [hloop]
    simp [ho]
  · intro hyes
    have ho : o = none := hiff.mpr hyes
    refine ⟨bs, ?_⟩
    simp only [processGtBox]
    rw [hloop]
    simp [ho]

theorem prepare_gt_assert_original_class_witness :
    originalAppears sampleHierarchy 1 ∧
      ∃ boxes, processGtBox sampleHierarchy sampleHierarchy.get_all_classes
        ⟨[0, 0, 1, 1], 1⟩ = .ok boxes := by
  have happ : originalAppears sampleHierarchy 1 := ⟨1, by decide, by decide, by decide⟩
  exact ⟨happ,
    (prepare_gt_assert_original_class sampleHierarchy ⟨[0, 0, 1, 1], 1⟩ (by decide)).2 happ⟩

/-- An image with no ground-truth boxes reaches `np.concatenate` with an
empty list of arrays, which raises. -/
theorem processGtImage_nil_fails (H : Hierarchy) (classes : List String) :
    processGtImage H classes [] = .error concatEmptyMsg := rfl

/-- The image loop fails as soon as some image has no boxes (every earlier
image either fails itself or the empty image's concatenation fails). -/
theorem gtImagesLoop_empty_image_fails (H : Hierarchy) (classes : List String)
    (gtbs : List (List GtBox)) (acc : List (List GtRecord)) (hmem : [] ∈ gtbs) :
    ∃ e, gtImagesLoop H classes gtbs acc = .error e := by
  induction gtbs generalizing acc with
  | nil => simp at hmem
  | cons img rest ih =>
    rcases List.mem_cons.mp hmem with h | h
    · exact ⟨concatEmptyMsg, by simp [gtImagesLoop, ← h, processGtImage_nil_fails]⟩
    · cases hpi : processGtImage H classes img with
      | error e => exact ⟨e, by simp [gtImagesLoop, hpi]⟩
      | ok ab =>
        obtain ⟨e, he⟩ := ih (appendClassRecords ab 0 acc) h
        exact ⟨e, by simp [gtImagesLoop, hpi, he]⟩

/-- C9: on any input in which some image carries zero ground-truth boxes,
`prepare_ground_truth_boxes` does not return a result: it fails with an
error (the empty image's `np.concatenate([])` raises unless an earlier image
already failed). Hence a non-empty box list per image is a precondition of
the interface. -/
theorem prepare_gt_empty_image_fails (H : Hierarchy) (gtbs : List (List GtBox))
    (hmem : [] ∈ gtbs) :
    ∃ e, prepare_ground_truth_boxes H gtbs = .error e :=
  gtImagesLoop_empty_image_fails H H.get_all_classes gtbs
    (H.get_all_classes.map fun _ => []) hmem

theorem prepare_gt_empty_image_fails_witness :
    ∃ e, prepare_ground_truth_boxes sampleHierarchy [[]] = .error e :=
  prepare_gt_empty_image_fails sampleHierarchy [[]] (by decide)

/-- Unfolding lemmas for the region and image loops of
`prepare_predictions`. -/
theorem predRoiLoop_nil (H : Hierarchy) (n : ℕ) (output rois : List (List ℚ))
    (acc : List Row) : predRoiLoop H n output rois [] acc = .ok acc := rfl

theorem predRoiLoop_cons (H : Hierarchy) (n : ℕ) (output rois : List (List ℚ))
    (roi_i : ℕ) (rest : List ℕ) (acc : List Row) :
    predRoiLoop H n output rois (roi_i :: rest) acc =
      match rois.get? roi_i with
      | none => .error indexErrorMsg
      | some roi =>
        match processRoi H n roi (output.getD roi_i []) with
        | .error e => .error e
        | .ok rows => predRoiLoop H n output rois rest (acc ++ rows) := rfl

theorem predRoiLoop_cons_oob (H : Hierarchy) (n : ℕ) (output rois : List (List ℚ))
    (roi_i : ℕ) (rest : List ℕ) (acc : List Row)
    (hr : rois.get? roi_i = none) :
    predRoiLoop H n output rois (roi_i :: rest) acc = .error indexErrorMsg := by
  rw [predRoiLoop_cons, hr]

theorem predRoiLoop_cons_found (H : Hierarchy) (n : ℕ) (output rois : List (List ℚ))
    (roi_i : ℕ) (rest : List ℕ) (acc : List Row) (roi : List ℚ)
    (hr : rois.get? roi_i = some roi) :
    predRoiLoop H n output rois (roi_i :: rest) acc =
      match processRoi H n roi (output.getD roi_i []) with
      | .error e => .error e
      | .ok rows => predRoiLoop H n output rois rest (acc ++ rows) := by
  rw [predRoiLoop_cons, hr]

theorem predRoiLoop_cons_err (H : Hierarchy) (n : ℕ) (output rois : List (List ℚ))
    (roi_i : ℕ) (rest : List ℕ) (acc : List Row) (roi : List ℚ) (e : String)
    (hr : rois.get? roi_i = some roi)
    (hp : processRoi H n roi (output.getD roi_i []) = .error e) :
    predRoiLoop H n output rois (roi_i :: rest) acc = .error e := by
  rw [predRoiLoop_cons_found _ _ _ _ _ _ _ _ hr, hp]

theorem predRoiLoop_cons_ok (H : Hierarchy) (n : ℕ) (output rois : List (List ℚ))
    (roi_i : ℕ) (rest : List ℕ) (acc : List Row) (roi : List ℚ) (rows : List Row)
    (hr : rois.get? roi_i = some roi)
    (hp : processRoi H n roi (output.getD roi_i []) = .ok rows) :
    predRoiLoop H n output rois (roi_i :: rest) acc =
      predRoiLoop H n output rois rest (acc ++ rows) := by
  rw [predRoiLoop_cons_found _ _ _ _ _ _ _ _ hr, hp]

theorem predImagesLoop_nil (H : Hierarchy) (n : ℕ)
    (outputs roiss : List (List (List ℚ))) (grid : BoxGrid) :
    predImagesLoop H n outputs roiss [] grid = .ok grid := rfl

theorem predImagesLoop_cons (H : Hierarchy) (n : ℕ)
    (outputs roiss : List (List (List ℚ))) (img_i : ℕ) (rest : List ℕ)
    (grid : BoxGrid) :
    predImagesLoop H n outputs roiss (img_i :: rest) grid =
      match roiss.get? img_i with
      | none => .error indexErrorMsg
      | some rois =>
        match predsForImg H n (outputs.getD img_i []) rois with
        | .error e => .error e
        | .ok rows =>
          predImagesLoop H n outputs roiss rest
            (assignClassRows rows n img_i grid) := rfl

theorem predImagesLoop_cons_found (H : Hierarchy) (n : ℕ)
    (outputs roiss : List (List (List ℚ))) (img_i : ℕ) (rest : List ℕ)
    (grid : BoxGrid) (rois : List (List ℚ))
    (hr : roiss.get? img_i = some rois) :
    predImagesLoop H n outputs roiss (img_i :: rest) grid =
      match predsForImg H n (outputs.getD img_i []) rois with
      | .error e => .error e
      | .ok rows =>
        predImagesLoop H n outputs roiss rest
          (assignClassRows rows n img_i grid) := by
  rw [predImagesLoop_cons, hr]

theorem predImagesLoop_cons_ok (H : Hierarchy) (n : ℕ)
    (outputs roiss : List (List (List ℚ))) (img_i : ℕ) (rest : List ℕ)
    (grid : BoxGrid) (rois : List (List ℚ)) (rows : List Row)
    (hr : roiss.get? img_i = some rois)
    (hp : predsForImg H n (outputs.getD img_i []) rois = .ok rows) :
    predImagesLoop H n outputs roiss (img_i :: rest) grid =
      predImagesLoop H n outputs roiss rest (assignClassRows rows n img_i grid) := by
  rw [predImagesLoop_cons_found _ _ _ _ _ _ _ _ hr, hp]

/-- The assertion of `processRoi`: the error is raised exactly when the
reduced vector's length disagrees with the class count. -/
theorem processRoi_error_iff (H : Hierarchy) (n : ℕ) (roi : Row)
    (pred : List ℚ) :
    processRoi H n roi pred = .error predAssertMsg ↔
      (reduced_p_vector H pred).length ≠ n := by
  unfold processRoi
  by_cases h : (reduced_p_vector H pred).length = n <;> simp [h]

/-- A region whose processing succeeded had a reduced vector of exactly the
configured length. -/
theorem processRoi_ok_length (H : Hierarchy) (n : ℕ) (roi : Row)
    (pred : List ℚ) (rows : List Row)
    (h : processRoi H n roi pred = .ok rows) :
    (reduced_p_vector H pred).length = n := by
  by_cases hl : (reduced_p_vector H pred).length = n
  · exact hl
  · unfold processRoi at h
    rw [if_neg hl] at h
    exact absurd h (by simp)

theorem predRoiLoop_ok_lengths (H : Hierarchy) (n : ℕ)
    (output rois : List (List ℚ)) (idxs : List ℕ) (acc res : List Row)
    (h : predRoiLoop H n output rois idxs acc = .ok res) :
    ∀ i ∈ idxs, (reduced_p_vector H (output.getD i [])).length = n := by
  induction idxs generalizing acc with
  | nil => intro i hi; simp at hi
  | cons j rest ih =>
    intro i hi
    cases hr : rois.get? j with
    | none =>
      rw [predRoiLoop_cons_oob _ _ _ _ _ _ _ hr] at h
      exact absurd h (by simp)
    | some roi =>
      cases hp : processRoi H n roi (output.getD j []) with
      | error e =>
        rw [predRoiLoop_cons_err _ _ _ _ _ _ _ _ _ hr hp] at h
        exact absurd h (by simp)
      | ok rows =>
        rw [predRoiLoop_cons_ok _ _ _ _ _ _ _ _ _ hr hp] at h
        rcases List.mem_cons.mp hi with rfl | hi'
        · exact processRoi_ok_length H n roi (output.getD i []) rows hp
        · exact ih (acc ++ rows) h i hi'

theorem predsForImg_ok_lengths (H : Hierarchy) (n : ℕ)
    (output rois : List (List ℚ)) (res : List Row)
    (h : predsForImg H n output rois = .ok res) :
    ∀ i ∈ List.range output.length,
      (reduced_p_vector H (output.getD i [])).length = n := by
  unfold predsForImg at h
  cases hl : predRoiLoop H n output rois (List.range output.length) [] with
  | error e => rw [hl] at h; exact absurd h (by simp)
  | ok rows => exact predRoiLoop_ok_lengths H n output rois _ [] rows hl

theorem predImagesLoop_ok_all (H : Hierarchy) (n : ℕ)
    (outputs roiss : List (List (List ℚ))) (idxs : List ℕ) (grid res : BoxGrid)
    (h : predImagesLoop H n outputs roiss idxs grid = .ok res) :
    ∀ i ∈ idxs, ∃ rois rows, roiss.get? i = some rois ∧
      predsForImg H n (outputs.getD i []) rois = .ok rows := by
  induction idxs generalizing grid with
  | nil => intro i hi; simp at hi
  | cons j rest ih =>
    intro i hi
    cases hr : roiss.get? j with
    | none =>
      rw [predImagesLoop_cons, hr] at h
      exact absurd h (by simp)
    | some rois =>
      cases hp : predsForImg H n (outputs.getD j []) rois with
      | error e =>
        rw [predImagesLoop_cons_found _ _ _ _ _ _ _ _ hr, hp] at h
        exact absurd h (by simp)
      | ok rows =>
        rw [predImagesLoop_cons_ok _ _ _ _ _ _ _ _ _ hr hp] at h
        rcases List.mem_cons.mp hi with rfl | hi'
        · exact ⟨rois, rows, hr, hp⟩
        · exact ih (assignClassRows rows n j grid) h i hi'

/-- C2: whenever `prepare_predictions` returns a result, every region it
processed had a reduced prediction vector of length exactly `num_classes`;
and a region whose reduced vector length disagrees with `num_classes` makes
its processing abort with the fatal assertion error rather than truncating. -/
theorem prepare_predictions_length_assert (H : Hierarchy) (n : ℕ)
    (outputs roiss : List (List (List ℚ))) (grid : BoxGrid)
    (hok : prepare_predictions H outputs roiss n = .ok grid) :
    (∀ imgI, imgI < outputs.length → ∀ roiI, roiI < (outputs.getD imgI []).length →
        (reduced_p_vector H ((outputs.getD imgI []).getD roiI [])).length = n) ∧
      (∀ roi pred, (reduced_p_vector H pred).length ≠ n →
        processRoi H n roi pred = .error predAssertMsg) := by
  constructor
  · intro imgI himg roiI hroi
    obtain ⟨rois, rows, _, hp⟩ :=
      predImagesLoop_ok_all H n outputs roiss (List.range outputs.length) _ grid hok
        imgI (List.mem_range.mpr himg)
    exact predsForImg_ok_lengths H n (outputs.getD imgI []) rois rows hp roiI
      (List.mem_range.mpr hroi)
  · intro roi pred hne
    exact (processRoi_error_iff H n roi pred).mpr hne

theorem prepare_predictions_length_assert_witness :
    (∀ imgI, imgI < ([[[(0 : ℚ), 1, 0]]] : List (List (List ℚ))).length →
        ∀ roiI, roiI < (([[[(0 : ℚ), 1, 0]]] : List (List (List ℚ))).getD imgI []).length →
        (reduced_p_vector sampleHierarchy
          ((([[[(0 : ℚ), 1, 0]]] : List (List (List ℚ))).getD imgI []).getD roiI [])).length = 3) ∧
      (∀ roi pred, (reduced_p_vector sampleHierarchy pred).length ≠ 3 →
        processRoi sampleHierarchy 3 roi pred = .error predAssertMsg) :=
  prepare_predictions_length_assert sampleHierarchy 3 [[[(0 : ℚ), 1, 0]]]
    [[[(0 : ℚ), 0, 1, 1]]]
    [[[]], [[[(0 : ℚ), 0, 1, 1, 1]]], [[]]] rfl

/-- Writing any cell of a non-background class row leaves the background row
(`all_boxes[0]`) untouched. -/
theorem setCell_getD_zero (grid : BoxGrid) (i j : ℕ) (v : Cell) (hi : i ≠ 0) :
    (setCell grid i j v).getD 0 [] = grid.getD 0 [] := by
  obtain ⟨k, rfl⟩ := Nat.exists_eq_succ_of_ne_zero hi
  cases grid with
  | nil => rfl
  | cons g gs => simp [setCell]

theorem foldl_setCell_getD_zero (img_i : ℕ) (f : ℕ → Cell) (idxs : List ℕ)
    (hp : ∀ c ∈ idxs, c ≠ 0) :
    ∀ grid : BoxGrid,
      (idxs.foldl (fun g cls => setCell g cls img_i (f cls)) grid).getD 0 [] =
        grid.getD 0 [] := by
  induction idxs with
  | nil => intro grid; rfl
  | cons c rest ih =>
    intro grid
    rw [List.foldl_cons, ih (fun d hd => hp d (List.mem_cons_of_mem _ hd)),
      setCell_getD_zero grid c img_i _ (hp c (List.mem_cons_self _ _))]

/-- The assignment loop only touches classes `1 .. num_classes - 1`. -/
theorem assignClassRows_getD_zero (rows : List Row) (n img_i : ℕ)
    (grid : BoxGrid) :
    (assignClassRows rows n img_i grid).getD 0 [] = grid.getD 0 [] := by
  unfold assignClassRows
  exact foldl_setCell_getD_zero img_i _ (List.range' 1 (n - 1))
    (fun c hc => by have := (List.mem_range'_1.mp hc).1; omega) grid

theorem predImagesLoop_getD_zero (H : Hierarchy) (n : ℕ)
    (outputs roiss : List (List (List ℚ))) (idxs : List ℕ) (grid res : BoxGrid)
    (h : predImagesLoop H n outputs roiss idxs grid = .ok res) :
    res.getD 0 [] = grid.getD 0 [] := by
  induction idxs generalizing grid with
  | nil =>
    rw [predImagesLoop_nil] at h
    injection h with h1
    rw [← h1]
  | cons j rest ih =>
    cases hr : roiss.get? j with
    | none =>
      rw [predImagesLoop_cons, hr] at h
      exact absurd h (by simp)
    | some rois =>
      cases hp : predsForImg H n (outputs.getD j []) rois with
      | error e =>
        rw [predImagesLoop_cons_found _ _ _ _ _ _ _ _ hr, hp] at h
        exact absurd h (by simp)
      | ok rows =>
        rw [predImagesLoop_cons_ok _ _ _ _ _ _ _ _ _ hr hp] at h
        rw [ih (assignClassRows rows n j grid) h,
          assignClassRows_getD_zero rows n j grid]

/-- C10: whenever `prepare_predictions` returns, the background row of the
returned structure is exactly its initial value: one empty list per image;
the per-class assignment loop never writes class index 0, even though the
intermediate per-image list receives triples for a non-zero background
entry. -/
theorem prepare_predictions_background_row (H : Hierarchy)
    (outputs roiss : List (List (List ℚ))) (n : ℕ) (grid : BoxGrid)
    (hn : 0 < n) (hok : prepare_predictions H outputs roiss n = .ok grid) :
    grid.getD 0 [] = List.replicate outputs.length ([] : Cell) := by
  have h0 := predImagesLoop_getD_zero H n outputs roiss
    (List.range outputs.length)
    (List.replicate n (List.replicate outputs.length ([] : Cell))) grid hok
  rw [h0]
  obtain ⟨k, rfl⟩ := Nat.exists_eq_succ_of_ne_zero (Nat.pos_iff_ne_zero.mp hn)
  simp [List.replicate]

theorem prepare_predictions_background_row_witness :
    ([[[]], [[[(0 : ℚ), 0, 1, 1, 1]]], [[]]] : BoxGrid).getD 0 [] =
      List.replicate 1 ([] : Cell) :=
  prepare_predictions_background_row sampleHierarchy [[[(0 : ℚ), 1, 0]]]
    [[[(0 : ℚ), 0, 1, 1]]] 3 [[[]], [[[(0 : ℚ), 0, 1, 1, 1]]], [[]]]
    (by decide) rfl

theorem getD_replicate_zero (m i : ℕ) :
    (List.replicate m (0 : ℚ)).getD i 0 = 0 := by
  induction m generalizing i with
  | zero => simp
  | succ k ih =>
    cases i with
    | zero => rfl
    | succ j => rw [List.replicate, List.getD_cons_succ]; exact ih j

theorem getLastD_append_pair (l : List ℚ) (a b d : ℚ) :
    (l ++ [a, b]).getLastD d = b := by
  induction l generalizing d with
  | nil => rfl
  | cons x xs ih => rw [List.cons_append, List.getLastD_cons]; exact ih x

theorem lastColumn_append_pair (l : List ℚ) (a b : ℚ) :
    lastColumn (l ++ [a, b]) = b :=
  getLastD_append_pair l a b 0

/-- A region whose reduced vector puts all its mass on background (entry 0
is 1, the rest 0) emits exactly one triple, labelled 0 (background). -/
theorem processRoi_background_only (H : Hierarchy) (n : ℕ) (roi : Row)
    (pred : List ℚ)
    (hred : reduced_p_vector H pred = 1 :: List.replicate (n - 1) 0)
    (hn : 0 < n) :
    processRoi H n roi pred = .ok [roi ++ [1, 0]] := by
  obtain ⟨m, rfl⟩ := Nat.exists_eq_succ_of_ne_zero (Nat.pos_iff_ne_zero.mp hn)
  have hm : m + 1 - 1 = m := rfl
  rw [hm] at hred
  have hlen : (reduced_p_vector H pred).length = m + 1 := by
    rw [hred]; simp
  simp only [processRoi]
  rw [if_pos hlen, hred]
  have key : ∀ i : ℕ, ((1 : ℚ) :: List.replicate m 0).getD (i + 1) 0 = 0 :=
    fun i => by rw [List.getD_cons_succ]; exact getD_replicate_zero m i
  simp [List.range_succ_eq_map, List.filterMap_cons, List.filterMap_map,
    Function.comp, key]

/-- On a one-region image whose reduced vector is background-only, the
per-image row list is that single background triple. -/
theorem predsForImg_background_only (H : Hierarchy) (n : ℕ) (roi pred : List ℚ)
    (hred : reduced_p_vector H pred = 1 :: List.replicate (n - 1) 0)
    (hn : 0 < n) :
    predsForImg H n [pred] [roi] = .ok [roi ++ [1, 0]] := by
  unfold predsForImg
  rw [show List.range ([pred] : List (List ℚ)).length = [0] from rfl,
    predRoiLoop_cons_ok H n [pred] [roi] 0 [] [] roi [roi ++ [1, 0]] rfl
      (processRoi_background_only H n roi pred hred hn),
    predRoiLoop_nil]
  simp

theorem setCell_preserves_empty (grid : BoxGrid) (i j : ℕ)
    (hall : ∀ pc ∈ grid, ∀ c ∈ pc, c = ([] : Cell)) :
    ∀ pc ∈ setCell grid i j ([] : Cell), ∀ c ∈ pc, c = ([] : Cell) := by
  intro pc hpc c hc
  rcases List.mem_or_eq_of_mem_set hpc with hmem | rfl
  · exact hall pc hmem c hc
  · rcases List.mem_or_eq_of_mem_set hc with hmem2 | rfl
    · rw [List.getD_eq_getElem?_getD] at hmem2
      cases hg : (grid[i]? : Option (List Cell)) with
      | none => rw [hg] at hmem2; simp at hmem2
      | some pc' =>
        rw [hg] at hmem2
        obtain ⟨hlt, rfl⟩ := List.getElem?_eq_some.mp hg
        exact hall _ (List.getElem_mem hlt) c hmem2
    · rfl

theorem foldl_setCell_preserves_empty (img_i : ℕ) (f : ℕ → Cell)
    (idxs : List ℕ) (hf : ∀ cls ∈ idxs, f cls = ([] : Cell)) :
    ∀ grid : BoxGrid, (∀ pc ∈ grid, ∀ c ∈ pc, c = ([] : Cell)) →
      ∀ pc ∈ idxs.foldl (fun g cls => setCell g cls img_i (f cls)) grid,
        ∀ c ∈ pc, c = ([] : Cell) := by
  induction idxs with
  | nil => intro grid h; exact h
  | cons cls rest ih =>
    intro grid h
    rw [List.foldl_cons]
    exact ih (fun d hd => hf d (List.mem_cons_of_mem _ hd)) _
      (by rw [hf cls (List.mem_cons_self _ _)]
          exact setCell_preserves_empty grid cls img_i h)

theorem assignClassRows_preserves_empty (rows : List Row) (n img_i : ℕ)
    (grid : BoxGrid)
    (hrows : ∀ cls ∈ List.range' 1 (n - 1),
      (rows.filter fun r => lastColumn r = (cls : ℚ)) = [])
    (hall : ∀ pc ∈ grid, ∀ c ∈ pc, c = ([] : Cell)) :
    ∀ pc ∈ assignClassRows rows n img_i grid, ∀ c ∈ pc, c = ([] : Cell) := by
  unfold assignClassRows
  exact foldl_setCell_preserves_empty img_i _ (List.range' 1 (n - 1))
    (fun cls hc => by rw [hrows cls hc]; rfl) grid hall

/-- C4: a region whose reduced prediction vector has all mass on background
(entry 0 equals 1, all other entries 0) contributes no detection to the
returned structure: on a one-image, one-region input, every cell of every
class row of the returned `all_boxes` is empty. -/
theorem background_only_region_no_detections (H : Hierarchy) (n : ℕ)
    (roi pred : List ℚ)
    (hred : reduced_p_vector H pred = 1 :: List.replicate (n - 1) 0)
    (hn : 0 < n) :
    ∃ grid, prepare_predictions H [[pred]] [[roi]] n = .ok grid ∧
      ∀ perClass ∈ grid, ∀ cell ∈ perClass, cell = ([] : Cell) := by
  have himg := predsForImg_background_only H n roi pred hred hn
  refine ⟨assignClassRows [roi ++ [1, 0]] n 0
      (List.replicate n (List.replicate 1 ([] : Cell))), ?_, ?_⟩
  · unfold prepare_predictions
    rw [show List.range ([[pred]] : List (List (List ℚ))).length = [0] from rfl,
      predImagesLoop_cons_ok H n [[pred]] [[roi]] 0 [] _ [roi] [roi ++ [1, 0]]
        rfl himg, predImagesLoop_nil]
    rfl
  · apply assignClassRows_preserves_empty
    · intro cls hc
      have h1 : 1 ≤ cls := (List.mem_range'_1.mp hc).1
      have hne : lastColumn (roi ++ [(1 : ℚ), 0]) ≠ (cls : ℚ) := by
        rw [lastColumn_append_pair]
        intro hq
        have : cls = 0 := by exact_mod_cast hq.symm
        omega
      simp [List.filter_cons, hne]
    · intro pc hpc c hc
      have hpc' := List.eq_of_mem_replicate hpc
      rw [hpc'] at hc
      exact List.eq_of_mem_replicate hc

theorem background_only_region_no_detections_witness :
    ∃ grid, prepare_predictions sampleHierarchy [[[(1 : ℚ), 0, 0]]]
        [[[(0 : ℚ), 0, 1, 1]]] 3 = .ok grid ∧
      ∀ perClass ∈ grid, ∀ cell ∈ perClass, cell = ([] : Cell) :=
  background_only_region_no_detections sampleHierarchy 3 [(0 : ℚ), 0, 1, 1]
    [(1 : ℚ), 0, 0] rfl (by decide)

theorem appendClassRecords_cons (allBoxes : List Row) (k : ℕ)
    (lst : List GtRecord) (rest : List (List GtRecord)) :
    appendClassRecords allBoxes k (lst :: rest) =
      (if k = 0 then lst else lst ++ [classRecord allBoxes k]) ::
        appendClassRecords allBoxes (k + 1) rest := rfl

theorem appendClassRecords_length (allBoxes : List Row) (k : ℕ)
    (acc : List (List GtRecord)) :
    (appendClassRecords allBoxes k acc).length = acc.length := by
  induction acc generalizing k with
  | nil => rfl
  | cons lst rest ih => rw [appendClassRecords_cons]; simp [ih]

/-- The per-class record loop appends exactly one record to every
non-background class's list and leaves the background list unchanged. -/
theorem appendClassRecords_getD (allBoxes : List Row) (k j : ℕ)
    (acc : List (List GtRecord)) (hj : j < acc.length) :
    (appendClassRecords allBoxes k acc).getD j [] =
      if k + j = 0 then acc.getD j []
      else acc.getD j [] ++ [classRecord allBoxes (k + j)] := by
  induction acc generalizing k j with
  | nil => simp at hj
  | cons lst rest ih =>
    rw [appendClassRecords_cons]
    cases j with
    | zero =>
      simp only [List.getD_cons_zero, Nat.add_zero]
    | succ j' =>
      have hj' : j' < rest.length := by simpa using hj
      have hrec := ih (k + 1) j' hj'
      rw [if_neg (by omega : ¬ (k + 1 + j' = 0)),
        show k + 1 + j' = k + (j' + 1) from by omega] at hrec
      rw [List.getD_cons_succ, List.getD_cons_succ, hrec,
        if_neg (by omega : ¬ (k + (j' + 1) = 0))]

theorem gtImagesLoop_nil (H : Hierarchy) (classes : List String)
    (acc : List (List GtRecord)) :
    gtImagesLoop H classes [] acc = .ok acc := rfl

theorem gtImagesLoop_cons (H : Hierarchy) (classes : List String)
    (img : List GtBox) (rest : List (List GtBox)) (acc : List (List GtRecord)) :
    gtImagesLoop H classes (img :: rest) acc =
      match processGtImage H classes img with
      | .error e => .error e
      | .ok allBoxes =>
        gtImagesLoop H classes rest (appendClassRecords allBoxes 0 acc) := rfl

theorem gtImagesLoop_cons_ok (H : Hierarchy) (classes : List String)
    (img : List GtBox) (rest : List (List GtBox)) (acc : List (List GtRecord))
    (ab : List Row) (hpi : processGtImage H classes img = .ok ab) :
    gtImagesLoop H classes (img :: rest) acc =
      gtImagesLoop H classes rest (appendClassRecords ab 0 acc) := by
  rw [gtImagesLoop_cons, hpi]

theorem gtImagesLoop_cons_err (H : Hierarchy) (classes : List String)
    (img : List GtBox) (rest : List (List GtBox)) (acc : List (List GtRecord))
    (e : String) (hpi : processGtImage H classes img = .error e) :
    gtImagesLoop H classes (img :: rest) acc = .error e := by
  rw [gtImagesLoop_cons, hpi]

theorem gtImagesLoop_lengths (H : Hierarchy) (classes : List String)
    (gtbs : List (List GtBox)) (acc res : List (List GtRecord)) (m : ℕ)
    (h : gtImagesLoop H classes gtbs acc = .ok res)
    (hlen : acc.length = classes.length)
    (hinv : ∀ i, 0 < i → i < classes.length → (acc.getD i []).length = m) :
    res.length = classes.length ∧
      ∀ i, 0 < i → i < classes.length →
        (res.getD i []).length = m + gtbs.length := by
  induction gtbs generalizing acc m with
  | nil =>
    rw [gtImagesLoop_nil] at h
    injection h with h1
    subst h1
    exact ⟨hlen, fun i h0 hc => by simpa using hinv i h0 hc⟩
  | cons img rest ih =>
    cases hpi : processGtImage H classes img with
    | error e =>
      rw [gtImagesLoop_cons_err H classes img rest acc e hpi] at h
      exact absurd h (by simp)
    | ok ab =>
      rw [gtImagesLoop_cons_ok H classes img rest acc ab hpi] at h
      have hlen' : (appendClassRecords ab 0 acc).length = classes.length := by
        rw [appendClassRecords_length]; exact hlen
      have hinv' : ∀ i, 0 < i → i < classes.length →
          ((appendClassRecords ab 0 acc).getD i []).length = m + 1 := by
        intro i h0 hc
        rw [appendClassRecords_getD ab 0 i acc (by omega),
          if_neg (by omega : ¬ (0 + i = 0)), List.length_append, hinv i h0 hc]
        rfl
      obtain ⟨h1, h2⟩ := ih (appendClassRecords ab 0 acc) (m + 1) h hlen' hinv'
      exact ⟨h1, fun i h0 hc => by rw [h2 i h0 hc, List.length_cons]; omega⟩

/-- C3: whenever `prepare_ground_truth_boxes` returns, every non-background
class's list holds exactly one record per input image; the record of a class
with no ground-truth boxes on an image is the empty record (empty bbox array,
empty difficult/det lists); and every record's difficult/det flags are all
initialized false (one per box). -/
theorem prepare_gt_per_image_records (H : Hierarchy) (gtbs : List (List GtBox))
    (res : List (List GtRecord))
    (hok : prepare_ground_truth_boxes H gtbs = .ok res) :
    (∀ i, 0 < i → i < H.get_all_classes.length →
        (res.getD i []).length = gtbs.length) ∧
      (∀ allBoxes i,
        (allBoxes.filter fun row => lastColumn row = (i : ℚ)) = [] →
        classRecord allBoxes i = ⟨[], [], []⟩) ∧
      (∀ allBoxes i,
        (classRecord allBoxes i).difficult =
            List.replicate (classRecord allBoxes i).bbox.length false ∧
          (classRecord allBoxes i).det =
            List.replicate (classRecord allBoxes i).bbox.length false) := by
  refine ⟨?_, ?_, ?_⟩
  · intro i h0 hc
    have init_len :
        (H.get_all_classes.map fun _ => ([] : List GtRecord)).length =
          H.get_all_classes.length := by simp
    have init_inv : ∀ i, 0 < i → i < H.get_all_classes.length →
        ((H.get_all_classes.map fun _ => ([] : List GtRecord)).getD i []).length = 0 := by
      intro i _ _
      rw [List.getD_eq_getElem?_getD, List.getElem?_map]
      cases H.get_all_classes[i]? <;> rfl
    have hmain := gtImagesLoop_lengths H H.get_all_classes gtbs
      (H.get_all_classes.map fun _ => ([] : List GtRecord)) res 0 hok init_len init_inv
    simpa using hmain.2 i h0 hc
  · intro allBoxes i hfil
    simp only [classRecord, hfil]
    rfl
  · intro allBoxes i
    exact ⟨rfl, rfl⟩

theorem prepare_gt_per_image_records_witness :
    (∀ i, 0 < i → i < sampleHierarchy.get_all_classes.length →
        (([[], [⟨[[(0 : ℚ), 0, 1, 1, 1]], [false], [false]⟩],
            [⟨[[(0 : ℚ), 0, 1, 1, 2]], [false], [false]⟩]] :
          List (List GtRecord)).getD i []).length =
          ([[⟨[(0 : ℚ), 0, 1, 1], 1⟩]] : List (List GtBox)).length) ∧
      (∀ allBoxes i,
        (allBoxes.filter fun row => lastColumn row = (i : ℚ)) = [] →
        classRecord allBoxes i = ⟨[], [], []⟩) ∧
      (∀ allBoxes i,
        (classRecord allBoxes i).difficult =
            List.replicate (classRecord allBoxes i).bbox.length false ∧
          (classRecord allBoxes i).det =
            List.replicate (classRecord allBoxes i).bbox.length false) :=
  prepare_gt_per_image_records sampleHierarchy [[⟨[(0 : ℚ), 0, 1, 1], 1⟩]]
    [[], [⟨[[(0 : ℚ), 0, 1, 1, 1]], [false], [false]⟩],
      [⟨[[(0 : ℚ), 0, 1, 1, 2]], [false], [false]⟩]] rfl
